import Mathlib

/-!
Verification development for the hobits-service repository.

Part 1 models the habits service
(`services/habits-service`: `internal/domain/entity/habit.go`,
`internal/service/habit_service.go`,
`internal/infrastructure/postgres/habit_repository.go`,
`internal/cron` deadline checker).

Time instants are seconds since the Unix epoch, as `Int`.  The Go code
only ever manipulates instants by a fixed hour offset, adds whole days
(`AddDate(0, 0, n)` on a time carrying the `time.UTC` location, which is
exactly `n * 86400` seconds), and extracts the calendar date and the
weekday.  With no leap seconds, the calendar date of an instant `t` is
the epoch day `t / 86400` (floor division) and Go's `time.Weekday`
(0 = Sunday) of epoch day `d` is `(d + 4) % 7` (1970-01-01 was a
Thursday).  Date strings produced by `Format("2006-01-02")` are in
bijection with epoch days, so local dates are represented by their epoch
day number.
-/

namespace Hobits

/-- Epoch day of an instant (Go date extraction, no leap seconds). -/
def dayOf (t : Int) : Int := t / 86400

/-- Go `time.Weekday` of an epoch day: 0 = Sunday, ..., 6 = Saturday. -/
def weekdayOf (d : Int) : Int := (d + 4) % 7

/-- `entity.ScheduleType`: the two constants `interval` and `weekly`. -/
inductive ScheduleType where
  | interval
  | weekly
deriving DecidableEq, Repr

/-- `entity.Habit`.  `intervalDays` models the nullable `*int32`,
`weeklyDays` the `[]int32` (0 = Sunday .. 6 = Saturday),
`lastConfirmedAt` the nullable `*time.Time`. -/
structure Habit where
  id : Nat
  userId : Nat
  name : String
  description : Option String
  color : Option String
  scheduleType : ScheduleType
  intervalDays : Option Int
  weeklyDays : List Int
  timezoneOffsetHours : Int
  streak : Int
  nextDeadlineUTC : Int
  confirmedForCurrentPeriod : Bool
  lastConfirmedAt : Option Int
  isActive : Bool
  createdAt : Int
  updatedAt : Int
deriving DecidableEq, Repr

/-- `Habit.GetLocalTime`: shift a UTC instant by the stored hour offset. -/
def getLocalTime (h : Habit) (utcTime : Int) : Int :=
  utcTime + h.timezoneOffsetHours * 3600

/-- Local calendar day (epoch day) of a UTC instant for a habit,
as produced by `Habit.GetLocalDate`. -/
def localDayOf (h : Habit) (utcTime : Int) : Int :=
  dayOf (getLocalTime h utcTime)

/-- The instant `23:59:59` local time on local epoch day `day`, converted
back to UTC by subtracting the offset (the `time.Date(..., 23, 59, 59, ...)
.Add(-offset)` computation shared by both deadline calculators). -/
def endOfDayUTC (day : Int) (offsetHours : Int) : Int :=
  day * 86400 + 86399 - offsetHours * 3600

/-- The scan inside `findNextWeeklyDeadline`: try `daysAhead = d, d+1, ...`
for `fuel` steps, returning the first `daysAhead` whose weekday
`(currentWeekday + daysAhead) % 7` is a scheduled day. -/
def weeklyScan (currentWeekday : Int) (weeklyDays : List Int) :
    Nat → Nat → Option Int
  | _, 0 => none
  | d, fuel + 1 =>
    if weeklyDays.contains ((currentWeekday + (d : Int)) % 7) then some (d : Int)
    else weeklyScan currentWeekday weeklyDays (d + 1) fuel

/-- `habitService.findNextWeeklyDeadline`: the next occurrence of any
scheduled weekday, starting from tomorrow; falls back to `+7` days. -/
def findNextWeeklyDeadline (fromTime : Int) (weeklyDays : List Int) :
    Int :=
  match weeklyScan (weekdayOf (dayOf fromTime)) weeklyDays 1 7 with
  | some daysAhead => fromTime + daysAhead * 86400
  | none => fromTime + 7 * 86400

/-- `habitService.CalculateNextDeadline`.  The schedule-type dispatch is
total because `entity.ScheduleType` has exactly the two constants.  The
Go code dereferences `*habit.IntervalDays` (a nil pointer would panic);
`Option.getD 0` stands in for the dereference and theorems that reach it
assume the field is populated, per the data-model invariant. -/
def calcNextDeadline (h : Habit) (fromTime : Int) : Int :=
  let localTime := getLocalTime h fromTime
  let nextLocalDeadline : Int :=
    match h.scheduleType with
    | .interval => localTime + h.intervalDays.getD 0 * 86400
    | .weekly => findNextWeeklyDeadline localTime h.weeklyDays
  endOfDayUTC (dayOf nextLocalDeadline) h.timezoneOffsetHours

/-- `habitService.CalculateInitialDeadline`: interval habits are due
today; weekly habits are due today when today's weekday is scheduled,
otherwise on the next scheduled weekday. -/
def calcInitialDeadline (h : Habit) (fromTime : Int) : Int :=
  let localTime := getLocalTime h fromTime
  let deadlineLocalDate : Int :=
    match h.scheduleType with
    | .interval => localTime
    | .weekly =>
      if h.weeklyDays.contains (weekdayOf (dayOf localTime)) then localTime
      else findNextWeeklyDeadline localTime h.weeklyDays
  endOfDayUTC (dayOf deadlineLocalDate) h.timezoneOffsetHours

/-! Row-level persistence operations of `postgres.habitRepository`.
Each SQL `UPDATE ... WHERE id = $n` acts on the stored row of one habit;
they are modelled as functions from the stored row to the new row. -/

/-- `habitRepository.Update`: writes only name, description, color,
schedule_type, interval_days, weekly_days, timezone_offset_hours and
updated_at.  The streak, deadline, confirmation flag, last_confirmed_at
and is_active columns of the stored row are untouched. -/
def repoUpdate (row : Habit) (h : Habit) (now : Int) : Habit :=
  { row with
    name := h.name
    description := h.description
    color := h.color
    scheduleType := h.scheduleType
    intervalDays := h.intervalDays
    weeklyDays := h.weeklyDays
    timezoneOffsetHours := h.timezoneOffsetHours
    updatedAt := now }

/-- `habitRepository.UpdateStreakAndDeadline`: writes streak,
next_deadline_utc, confirmed_for_current_period, and unconditionally sets
both last_confirmed_at and updated_at to `time.Now()`. -/
def updateStreakAndDeadline (row : Habit) (streak : Int)
    (nextDeadline : Int) (confirmed : Bool) (now : Int) : Habit :=
  { row with
    streak := streak
    nextDeadlineUTC := nextDeadline
    confirmedForCurrentPeriod := confirmed
    lastConfirmedAt := some now
    updatedAt := now }

/-- `habitRepository.ResetConfirmationFlag`. -/
def resetConfirmationFlag (row : Habit) (now : Int) : Habit :=
  { row with confirmedForCurrentPeriod := false, updatedAt := now }

/-- `habitRepository.Delete`: soft delete. -/
def repoDelete (row : Habit) (now : Int) : Habit :=
  { row with isActive := false, updatedAt := now }

/-- Selection predicate of `GetHabitsWithMissedDeadlines`:
`is_active AND NOT confirmed_for_current_period AND next_deadline_utc ≤ now`. -/
def missedDeadlineSelect (now : Int) (h : Habit) : Bool :=
  h.isActive && !h.confirmedForCurrentPeriod && decide (h.nextDeadlineUTC ≤ now)

/-- Selection predicate of `GetHabitsToResetConfirmation`:
`is_active AND confirmed_for_current_period AND fromTime ≤ next_deadline_utc
≤ toTime`. -/
def resetConfirmationSelect (fromTime toTime : Int) (h : Habit) : Bool :=
  h.isActive && h.confirmedForCurrentPeriod &&
    decide (fromTime ≤ h.nextDeadlineUTC) && decide (h.nextDeadlineUTC ≤ toTime)

/-- The per-habit effect of `habitService.ResetConfirmationFlags` (sweeper
pass A) at instant `now`: habits selected in the `[now-24h, now+24h]`
window whose local date equals the deadline's local date get their flag
cleared. -/
def resetConfirmationStep (now : Int) (h : Habit) : Habit :=
  if resetConfirmationSelect (now - 24 * 3600) (now + 24 * 3600) h
      && decide (localDayOf h now = localDayOf h h.nextDeadlineUTC) then
    resetConfirmationFlag h now
  else h

/-- The per-habit effect of `habitService.ProcessMissedDeadlines` (sweeper
pass B) at instant `now`: selected habits are demoted to streak 0 with a
deadline recomputed from `now` and the flag left false, persisted through
`UpdateStreakAndDeadline`. -/
def processMissedDeadline (now : Int) (h : Habit) : Habit :=
  if missedDeadlineSelect now h then
    updateStreakAndDeadline h 0 (calcNextDeadline h now) false now
  else h

/-- One tick of `DeadlineChecker.checkDeadlines` on one habit:
`ResetConfirmationFlags` (pass A) then `ProcessMissedDeadlines` (pass B). -/
def sweepHabit (now : Int) (h : Habit) : Habit :=
  processMissedDeadline now (resetConfirmationStep now h)

/-- The data-model invariant on the schedule fields: exactly the payload
matching the schedule tag is populated (`interval(n)` with `n ≥ 1`,
`weekly(S)` with `S` nonempty). -/
def ScheduleWF (h : Habit) : Prop :=
  match h.scheduleType with
  | .interval => ∃ n, h.intervalDays = some n ∧ 1 ≤ n
  | .weekly => h.weeklyDays ≠ []

/-! Lemmas about the weekly scan. -/

theorem contains_iff_mem (ws : List Int) (x : Int) :
    ws.contains x = true ↔ x ∈ ws :=
  List.elem_iff

theorem weeklyScan_eq_some (cw : Int) (ws : List Int) :
    ∀ (fuel d : Nat) (r : Int), weeklyScan cw ws d fuel = some r →
      (d : Int) ≤ r ∧ r < (d : Int) + (fuel : Int) ∧
      ws.contains ((cw + r) % 7) = true ∧
      ∀ e : Int, (d : Int) ≤ e → e < r → ws.contains ((cw + e) % 7) = false := by
  intro fuel
  induction fuel with
  | zero => intro d r hr; simp [weeklyScan] at hr
  | succ fuel ih =>
    intro d r hr
    unfold weeklyScan at hr
    by_cases hc : ws.contains ((cw + (d : Int)) % 7) = true
    · rw [if_pos hc] at hr
      obtain rfl : (d : Int) = r := by exact Option.some.inj hr
      refine ⟨le_refl _, by push_cast; omega, hc, ?_⟩
      intro e h1 h2; omega
    · rw [if_neg hc] at hr
      obtain ⟨ih1, ih2, ih3, ih4⟩ := ih (d + 1) r hr
      push_cast at ih1 ih2
      refine ⟨by omega, by push_cast; omega, ih3, ?_⟩
      intro e h1 h2
      rcases eq_or_lt_of_le h1 with heq | hlt
      · subst heq; exact Bool.eq_false_iff.mpr hc
      · exact ih4 e (by omega) h2

theorem weeklyScan_eq_none (cw : Int) (ws : List Int) :
    ∀ (fuel d : Nat), weeklyScan cw ws d fuel = none →
      ∀ e : Int, (d : Int) ≤ e → e < (d : Int) + (fuel : Int) →
        ws.contains ((cw + e) % 7) = false := by
  intro fuel
  induction fuel with
  | zero => intro d _ e h1 h2; push_cast at h2; omega
  | succ fuel ih =>
    intro d hr e h1 h2
    unfold weeklyScan at hr
    by_cases hc : ws.contains ((cw + (d : Int)) % 7) = true
    · rw [if_pos hc] at hr; exact absurd hr (by simp)
    · rw [if_neg hc] at hr
      rcases eq_or_lt_of_le h1 with heq | hlt
      · subst heq; exact Bool.eq_false_iff.mpr hc
      · exact ih (d + 1) hr e (by push_cast; omega) (by push_cast at h2 ⊢; omega)

/-- When the scheduled set contains a valid weekday, the 7-day scan
starting at offset 1 cannot fall through to the fallback. -/
theorem weeklyScan_ne_none (cw : Int) (ws : List Int) (w : Int)
    (hmem : w ∈ ws) (hw0 : 0 ≤ w) (hw7 : w < 7) :
    weeklyScan cw ws 1 7 ≠ none := by
  intro hnone
  have hall := weeklyScan_eq_none cw ws 7 1 hnone
  have he : (cw + ((w - cw - 1) % 7 + 1)) % 7 = w := by omega
  have hb : (1 : Int) ≤ (w - cw - 1) % 7 + 1 ∧ (w - cw - 1) % 7 + 1 < 1 + 7 := by omega
  have hfalse := hall ((w - cw - 1) % 7 + 1) (by push_cast; omega) (by push_cast; omega)
  rw [he] at hfalse
  have hmemb := (contains_iff_mem ws w).mpr hmem
  rw [hfalse] at hmemb
  simp at hmemb

/-- `findNextWeeklyDeadline` always lands between 1 and 7 days ahead. -/
theorem findNextWeeklyDeadline_eq (fromTime : Int) (ws : List Int) :
    ∃ d : Int, 1 ≤ d ∧ d ≤ 7 ∧
      findNextWeeklyDeadline fromTime ws = fromTime + d * 86400 := by
  unfold findNextWeeklyDeadline
  cases hscan : weeklyScan (weekdayOf (dayOf fromTime)) ws 1 7 with
  | none => exact ⟨7, by omega, by omega, rfl⟩
  | some r =>
    obtain ⟨h1, h2, _, _⟩ := weeklyScan_eq_some _ ws 7 1 r hscan
    exact ⟨r, by push_cast at h1 h2; omega, by push_cast at h1 h2; omega, rfl⟩

theorem dayOf_add_days (t n : Int) : dayOf (t + n * 86400) = dayOf t + n := by
  unfold dayOf; omega

/-- Core deadline arithmetic: for a habit with a well-formed schedule the
recomputed deadline lies strictly in the future of the computation
instant. -/
theorem lt_calcNextDeadline (h : Habit) (t : Int) (hwf : ScheduleWF h) :
    t < calcNextDeadline h t := by
  unfold ScheduleWF at hwf
  cases hty : h.scheduleType with
  | interval =>
    rw [hty] at hwf
    obtain ⟨n, hn, hn1⟩ := hwf
    simp only [calcNextDeadline, endOfDayUTC, getLocalTime, hty, hn,
      Option.getD_some, dayOf_add_days]
    unfold dayOf
    omega
  | weekly =>
    obtain ⟨d, hd1, hd7, heq⟩ :=
      findNextWeeklyDeadline_eq (t + h.timezoneOffsetHours * 3600) h.weeklyDays
    simp only [calcNextDeadline, endOfDayUTC, getLocalTime, hty, heq,
      dayOf_add_days]
    unfold dayOf
    omega

/-! Sweeper theorems. -/

/-- C3: For every active habit with `confirmed_for_current_period = false`
whose `next_deadline_utc` has passed, the demotion pass running at
`t ≥ next_deadline_utc` leaves the habit at streak 0, with the flag still
false, and with a new deadline strictly greater than `t`. -/
theorem missed_deadline_demotion (h : Habit) (t : Int)
    (hact : h.isActive = true) (hconf : h.confirmedForCurrentPeriod = false)
    (hdl : h.nextDeadlineUTC ≤ t) (hwf : ScheduleWF h) :
    (processMissedDeadline t h).streak = 0 ∧
    (processMissedDeadline t h).confirmedForCurrentPeriod = false ∧
    t < (processMissedDeadline t h).nextDeadlineUTC := by
  have hsel : missedDeadlineSelect t h = true := by
    simp [missedDeadlineSelect, hact, hconf, hdl]
  refine ⟨?_, ?_, ?_⟩ <;>
    simp only [processMissedDeadline, hsel, if_true, updateStreakAndDeadline]
  exact lt_calcNextDeadline h t hwf

/-- A habit used to exercise the sweeper theorems: interval(2), offset 0,
streak 5, unconfirmed, deadline at the end of epoch day 0. -/
def demoHabit : Habit :=
  ⟨0, 0, "run", none, none, .interval, some 2, [], 0, 5, 86399, false, none,
    true, 0, 0⟩

theorem missed_deadline_demotion_witness :
    (demoHabit.isActive = true ∧ demoHabit.confirmedForCurrentPeriod = false ∧
      demoHabit.nextDeadlineUTC ≤ 100000 ∧ ScheduleWF demoHabit) ∧
    ((processMissedDeadline 100000 demoHabit).streak = 0 ∧
      (processMissedDeadline 100000 demoHabit).confirmedForCurrentPeriod = false ∧
      100000 < (processMissedDeadline 100000 demoHabit).nextDeadlineUTC) :=
  ⟨⟨rfl, rfl, by decide, ⟨2, rfl, by decide⟩⟩,
    missed_deadline_demotion demoHabit 100000 rfl rfl (by decide)
      ⟨2, rfl, by decide⟩⟩

theorem resetConfirmationStep_of_flag_false (t : Int) (x : Habit)
    (hx : x.confirmedForCurrentPeriod = false) :
    resetConfirmationStep t x = x := by
  unfold resetConfirmationStep resetConfirmationSelect
  rw [hx]
  simp

theorem processMissedDeadline_idem (t : Int) (x : Habit) :
    processMissedDeadline t (processMissedDeadline t x) =
      processMissedDeadline t x := by
  unfold processMissedDeadline
  by_cases h1 : missedDeadlineSelect t x = true
  · rw [if_pos h1]
    by_cases h2 : missedDeadlineSelect t
        (updateStreakAndDeadline x 0 (calcNextDeadline x t) false t) = true
    · rw [if_pos h2]
      rfl
    · rw [if_neg h2]
  · rw [if_neg h1, if_neg h1]

theorem resetConfirmationStep_after_sweep (t : Int) (h : Habit) :
    resetConfirmationStep t (processMissedDeadline t (resetConfirmationStep t h)) =
      processMissedDeadline t (resetConfirmationStep t h) := by
  by_cases hB : missedDeadlineSelect t (resetConfirmationStep t h) = true
  · have hred : processMissedDeadline t (resetConfirmationStep t h) =
        updateStreakAndDeadline (resetConfirmationStep t h) 0
          (calcNextDeadline (resetConfirmationStep t h) t) false t := by
      unfold processMissedDeadline
      rw [if_pos hB]
    rw [hred]
    exact resetConfirmationStep_of_flag_false t _ rfl
  · have hbeq : processMissedDeadline t (resetConfirmationStep t h) =
        resetConfirmationStep t h := by
      unfold processMissedDeadline
      rw [if_neg hB]
    rw [hbeq]
    by_cases hA : (resetConfirmationSelect (t - 24 * 3600) (t + 24 * 3600) h
        && decide (localDayOf h t = localDayOf h h.nextDeadlineUTC)) = true
    · have ha : resetConfirmationStep t h = resetConfirmationFlag h t := by
        unfold resetConfirmationStep
        rw [if_pos hA]
      rw [ha]
      exact resetConfirmationStep_of_flag_false t _ rfl
    · have ha : resetConfirmationStep t h = h := by
        unfold resetConfirmationStep
        rw [if_neg hA]
      rw [ha]
      unfold resetConfirmationStep
      rw [if_neg hA]

/-- C4: One tick of the sweeper (flag-reset pass, then demotion pass) is
idempotent: running it twice at the same instant yields the same habit
state as running it once.  The schedule well-formedness hypothesis keeps
the statement inside the region where the Go demotion pass is defined
(a nil `IntervalDays` would panic in `CalculateNextDeadline`). -/
theorem sweeper_idempotent (t : Int) (h : Habit) (hwf : ScheduleWF h) :
    sweepHabit t (sweepHabit t h) = sweepHabit t h := by
  unfold sweepHabit
  rw [resetConfirmationStep_after_sweep]
  exact processMissedDeadline_idem t (resetConfirmationStep t h)

theorem sweeper_idempotent_witness :
    ScheduleWF demoHabit ∧
    sweepHabit 100000 (sweepHabit 100000 demoHabit) = sweepHabit 100000 demoHabit :=
  ⟨⟨2, rfl, by decide⟩, sweeper_idempotent 100000 demoHabit ⟨2, rfl, by decide⟩⟩

/-- C10: Every persisted streak-and-deadline write goes through
`UpdateStreakAndDeadline`, which unconditionally sets `last_confirmed_at`
to the write instant; in particular a sweeper demotion at instant `t`
stamps `last_confirmed_at = t` even though no confirmation occurred. -/
theorem update_streak_stamps_last_confirmed (h : Habit) (t : Int)
    (hsel : missedDeadlineSelect t h = true) :
    (processMissedDeadline t h).lastConfirmedAt = some t ∧
    ∀ (row : Habit) (s dl : Int) (c : Bool) (n : Int),
      (updateStreakAndDeadline row s dl c n).lastConfirmedAt = some n := by
  constructor
  · simp only [processMissedDeadline, hsel, if_true, updateStreakAndDeadline]
  · intro row s dl c n
    rfl

theorem update_streak_stamps_last_confirmed_witness :
    missedDeadlineSelect 100000 demoHabit = true ∧
    (processMissedDeadline 100000 demoHabit).lastConfirmedAt = some 100000 :=
  ⟨by decide,
    (update_streak_stamps_last_confirmed demoHabit 100000 (by decide)).1⟩

/-! Weekly schedule arithmetic. -/

theorem localDayOf_endOfDay (h : Habit) (d : Int) :
    localDayOf h (endOfDayUTC d h.timezoneOffsetHours) = d := by
  unfold localDayOf getLocalTime endOfDayUTC dayOf
  omega

theorem weekdayOf_day_add (d k : Int) :
    weekdayOf (d + k) = (weekdayOf d + k) % 7 := by
  unfold weekdayOf
  omega

/-- The date reached by `findNextWeeklyDeadline` is the least local date
strictly after the starting date whose weekday is scheduled, and it is at
most 7 days ahead. -/
theorem findNextWeekly_day_minimal (lt : Int) (ws : List Int)
    (hne : ws ≠ []) (hvalid : ∀ w ∈ ws, 0 ≤ w ∧ w < 7) :
    dayOf lt < dayOf (findNextWeeklyDeadline lt ws) ∧
    dayOf (findNextWeeklyDeadline lt ws) ≤ dayOf lt + 7 ∧
    weekdayOf (dayOf (findNextWeeklyDeadline lt ws)) ∈ ws ∧
    ∀ e : Int, dayOf lt < e → e < dayOf (findNextWeeklyDeadline lt ws) →
      weekdayOf e ∉ ws := by
  obtain ⟨w, hw⟩ := List.exists_mem_of_ne_nil ws hne
  obtain ⟨hw0, hw7⟩ := hvalid w hw
  cases hscan : weeklyScan (weekdayOf (dayOf lt)) ws 1 7 with
  | none => exact absurd hscan (weeklyScan_ne_none _ ws w hw hw0 hw7)
  | some r =>
    obtain ⟨hr1, hr8, hcont, hmin⟩ := weeklyScan_eq_some _ ws 7 1 r hscan
    push_cast at hr1 hr8
    have hfind : findNextWeeklyDeadline lt ws = lt + r * 86400 := by
      unfold findNextWeeklyDeadline
      rw [hscan]
    rw [hfind, dayOf_add_days]
    refine ⟨by omega, by omega, ?_, ?_⟩
    · rw [weekdayOf_day_add]
      exact (contains_iff_mem ws _).mp hcont
    · intro e he1 he2 hmem
      have hk : e = dayOf lt + (e - dayOf lt) := by omega
      have hwd : weekdayOf e = (weekdayOf (dayOf lt) + (e - dayOf lt)) % 7 := by
        rw [hk, weekdayOf_day_add]
        omega
      have hfalse := hmin (e - dayOf lt) (by omega) (by omega)
      rw [← hwd] at hfalse
      have := (contains_iff_mem ws (weekdayOf e)).mpr hmem
      rw [hfalse] at this
      simp at this

/-- C6: For a weekly habit with a valid, non-empty scheduled set, the
local date of the deadline recomputed by `CalculateNextDeadline` is the
smallest local date strictly after the local date of the computation
instant whose weekday is scheduled, and lies at most 7 days ahead. -/
theorem weekly_next_deadline_minimal (h : Habit) (t : Int)
    (hty : h.scheduleType = .weekly) (hne : h.weeklyDays ≠ [])
    (hvalid : ∀ w ∈ h.weeklyDays, 0 ≤ w ∧ w < 7) :
    localDayOf h t < localDayOf h (calcNextDeadline h t) ∧
    localDayOf h (calcNextDeadline h t) ≤ localDayOf h t + 7 ∧
    weekdayOf (localDayOf h (calcNextDeadline h t)) ∈ h.weeklyDays ∧
    ∀ e : Int, localDayOf h t < e → e < localDayOf h (calcNextDeadline h t) →
      weekdayOf e ∉ h.weeklyDays := by
  have hcalc : calcNextDeadline h t =
      endOfDayUTC (dayOf (findNextWeeklyDeadline (getLocalTime h t) h.weeklyDays))
        h.timezoneOffsetHours := by
    simp only [calcNextDeadline, hty]
  have hld : localDayOf h (calcNextDeadline h t) =
      dayOf (findNextWeeklyDeadline (getLocalTime h t) h.weeklyDays) := by
    rw [hcalc, localDayOf_endOfDay]
  have hlt : localDayOf h t = dayOf (getLocalTime h t) := rfl
  rw [hld, hlt]
  exact findNextWeekly_day_minimal (getLocalTime h t) h.weeklyDays hne hvalid

/-- A weekly habit scheduled on Monday, Wednesday, Friday with offset 0. -/
def mwfHabit : Habit :=
  ⟨1, 0, "gym", none, none, .weekly, none, [1, 3, 5], 0, 0, 86399, false, none,
    true, 0, 0⟩

theorem weekly_next_deadline_minimal_witness :
    (mwfHabit.scheduleType = .weekly ∧ mwfHabit.weeklyDays ≠ [] ∧
      ∀ w ∈ mwfHabit.weeklyDays, 0 ≤ w ∧ w < 7) ∧
    (localDayOf mwfHabit 0 < localDayOf mwfHabit (calcNextDeadline mwfHabit 0) ∧
      localDayOf mwfHabit (calcNextDeadline mwfHabit 0) ≤ localDayOf mwfHabit 0 + 7 ∧
      weekdayOf (localDayOf mwfHabit (calcNextDeadline mwfHabit 0)) ∈ mwfHabit.weeklyDays ∧
      ∀ e : Int, localDayOf mwfHabit 0 < e →
        e < localDayOf mwfHabit (calcNextDeadline mwfHabit 0) →
        weekdayOf e ∉ mwfHabit.weeklyDays) :=
  ⟨⟨rfl, by decide, by decide⟩,
    weekly_next_deadline_minimal mwfHabit 0 rfl (by decide) (by decide)⟩

/-- `habitService.CreateHabit`.  The timezone argument arrives already
converted to an hour offset (`ConvertTimezoneToOffset` evaluates the IANA
name at the current instant; both that conversion and
`CalculateInitialDeadline` see the same offset at creation time).
Identifier generation (`uuid.New`) is passed in as `newId`. -/
def createHabit (userId : Nat) (name : String) (description color : Option String)
    (scheduleType : ScheduleType) (intervalDays : Option Int)
    (weeklyDays : List Int) (timezoneOffsetHours : Int) (now : Int)
    (newId : Nat) : Except String Habit :=
  if scheduleType = .interval ∧ intervalDays.getD 0 ≤ 0 then
    .error "interval_days is required and must be positive for interval schedule"
  else if scheduleType = .weekly ∧ weeklyDays = [] then
    .error "weekly_days is required for weekly schedule"
  else
    let localNow := now + timezoneOffsetHours * 3600
    let confirmedForCurrentPeriod :=
      match scheduleType with
      | .weekly => !(weeklyDays.contains (weekdayOf (dayOf localNow)))
      | .interval => false
    let habit : Habit :=
      { id := newId, userId := userId, name := name, description := description,
        color := color, scheduleType := scheduleType,
        intervalDays := intervalDays, weeklyDays := weeklyDays,
        timezoneOffsetHours := timezoneOffsetHours, streak := 0,
        nextDeadlineUTC := 0,
        confirmedForCurrentPeriod := confirmedForCurrentPeriod,
        lastConfirmedAt := none, isActive := true, createdAt := now,
        updatedAt := now }
    .ok { habit with nextDeadlineUTC := calcInitialDeadline habit now }

/-- C7: Creating a weekly habit on a local day whose weekday is not
scheduled yields `confirmed_for_current_period = true` and a first
deadline on the next scheduled weekday (the least strictly-later matching
local date); creating it on a scheduled weekday yields the flag false and
the first deadline at local end of that same day. -/
theorem weekly_create_flag_and_deadline (userId newId : Nat) (name : String)
    (description color : Option String) (ws : List Int) (off now : Int)
    (hne : ws ≠ []) (hvalid : ∀ w ∈ ws, 0 ≤ w ∧ w < 7) :
    ∃ hb, createHabit userId name description color .weekly none ws off now newId =
        .ok hb ∧
      ((weekdayOf (dayOf (now + off * 3600)) ∉ ws →
          hb.confirmedForCurrentPeriod = true ∧
          dayOf (now + off * 3600) < localDayOf hb hb.nextDeadlineUTC ∧
          localDayOf hb hb.nextDeadlineUTC ≤ dayOf (now + off * 3600) + 7 ∧
          weekdayOf (localDayOf hb hb.nextDeadlineUTC) ∈ ws ∧
          ∀ e : Int, dayOf (now + off * 3600) < e →
            e < localDayOf hb hb.nextDeadlineUTC → weekdayOf e ∉ ws) ∧
        (weekdayOf (dayOf (now + off * 3600)) ∈ ws →
          hb.confirmedForCurrentPeriod = false ∧
          hb.nextDeadlineUTC = endOfDayUTC (dayOf (now + off * 3600)) off)) := by
  have h1 : ¬(ScheduleType.weekly = ScheduleType.interval ∧
      (none : Option Int).getD 0 ≤ 0) := by
    simp
  have h2 : ¬(ScheduleType.weekly = ScheduleType.weekly ∧ ws = []) := by
    simp [hne]
  unfold createHabit
  rw [if_neg h1, if_neg h2]
  refine ⟨_, rfl, ?_, ?_⟩
  · intro hnot
    have hcont : ws.contains (weekdayOf (dayOf (now + off * 3600))) = false := by
      rcases hc : ws.contains (weekdayOf (dayOf (now + off * 3600))) with _ | _
      · rfl
      · exact absurd ((contains_iff_mem ws _).mp hc) hnot
    refine ⟨by simp [hnot], ?_⟩
    have hinit : calcInitialDeadline
        { id := newId, userId := userId, name := name, description := description,
          color := color, scheduleType := .weekly, intervalDays := none,
          weeklyDays := ws, timezoneOffsetHours := off, streak := 0,
          nextDeadlineUTC := 0,
          confirmedForCurrentPeriod := !ws.contains (weekdayOf (dayOf (now + off * 3600))),
          lastConfirmedAt := none, isActive := true, createdAt := now,
          updatedAt := now } now =
        endOfDayUTC (dayOf (findNextWeeklyDeadline (now + off * 3600) ws)) off := by
      simp only [calcInitialDeadline, getLocalTime, hcont]
      rfl
    have hmain := findNextWeekly_day_minimal (now + off * 3600) ws hne hvalid
    constructor
    · simp only [hinit]
      rw [show localDayOf _ (endOfDayUTC (dayOf (findNextWeeklyDeadline (now + off * 3600) ws)) off) =
        dayOf (findNextWeeklyDeadline (now + off * 3600) ws) from
          localDayOf_endOfDay _ _]
      exact hmain.1
    constructor
    · simp only [hinit]
      rw [localDayOf_endOfDay]
      exact hmain.2.1
    constructor
    · simp only [hinit]
      rw [localDayOf_endOfDay]
      exact hmain.2.2.1
    · intro e he1 he2
      refine hmain.2.2.2 e he1 ?_
      rw [hinit, localDayOf_endOfDay] at he2
      exact he2
  · intro hmem
    have hcont : ws.contains (weekdayOf (dayOf (now + off * 3600))) = true :=
      (contains_iff_mem ws _).mpr hmem
    refine ⟨by simp [hmem], ?_⟩
    simp only [calcInitialDeadline, getLocalTime, hcont]
    rfl

theorem weekly_create_flag_and_deadline_witness :
    (([1, 3, 5] : List Int) ≠ [] ∧ ∀ w ∈ ([1, 3, 5] : List Int), 0 ≤ w ∧ w < 7) ∧
    ∃ hb, createHabit 0 "gym" none none .weekly none [1, 3, 5] 0 0 1 = .ok hb ∧
      ((weekdayOf (dayOf (0 + 0 * 3600)) ∉ ([1, 3, 5] : List Int) →
          hb.confirmedForCurrentPeriod = true ∧
          dayOf (0 + 0 * 3600) < localDayOf hb hb.nextDeadlineUTC ∧
          localDayOf hb hb.nextDeadlineUTC ≤ dayOf (0 + 0 * 3600) + 7 ∧
          weekdayOf (localDayOf hb hb.nextDeadlineUTC) ∈ ([1, 3, 5] : List Int) ∧
          ∀ e : Int, dayOf (0 + 0 * 3600) < e →
            e < localDayOf hb hb.nextDeadlineUTC →
            weekdayOf e ∉ ([1, 3, 5] : List Int)) ∧
        (weekdayOf (dayOf (0 + 0 * 3600)) ∈ ([1, 3, 5] : List Int) →
          hb.confirmedForCurrentPeriod = false ∧
          hb.nextDeadlineUTC = endOfDayUTC (dayOf (0 + 0 * 3600)) 0)) :=
  ⟨⟨by decide, by decide⟩,
    weekly_create_flag_and_deadline 0 1 "gym" none none [1, 3, 5] 0 0
      (by decide) (by decide)⟩

/-! `habitService.UpdateHabit` and `habitService.ConfirmHabit`. -/

/-- The in-memory mutation phase of `habitService.UpdateHabit` on the
habit loaded by `GetByIDAndUserID`: apply each provided field, then
recompute the deadline and clear the flag when a schedule or timezone
field changed.  Optional arguments model the nullable pointers (`nil` =
not provided; `weeklyDays = []` = not provided, as the Go code triggers
on `len(weeklyDays) > 0`); the timezone argument arrives as a converted
hour offset. -/
def updateHabitFields (row : Habit) (name : Option String)
    (description color : Option String) (scheduleType : Option ScheduleType)
    (intervalDays : Option Int) (weeklyDays : List Int)
    (timezoneOffsetHours : Option Int) (now : Int) : Habit :=
  let h1 : Habit := match name with
    | some n => { row with name := n }
    | none => row
  let h2 : Habit := match description with
    | some d => { h1 with description := some d }
    | none => h1
  let h3 : Habit := match color with
    | some c => { h2 with color := some c }
    | none => h2
  let needsDeadlineRecalc : Bool := scheduleType.isSome || intervalDays.isSome ||
    !weeklyDays.isEmpty || timezoneOffsetHours.isSome
  let h4 : Habit := match scheduleType with
    | some st => { h3 with scheduleType := st }
    | none => h3
  let h5 : Habit := match intervalDays with
    | some n => { h4 with intervalDays := some n }
    | none => h4
  let h6 : Habit :=
    if weeklyDays.isEmpty then h5 else { h5 with weeklyDays := weeklyDays }
  let h7 : Habit := match timezoneOffsetHours with
    | some off => { h6 with timezoneOffsetHours := off }
    | none => h6
  let h8 : Habit := if needsDeadlineRecalc then
      { h7 with nextDeadlineUTC := calcNextDeadline h7 now,
                confirmedForCurrentPeriod := false }
    else h7
  { h8 with updatedAt := now }

/-- `habitService.UpdateHabit`: mutate in memory, validate the resulting
schedule, then persist through `habitRepository.Update`.  Returns the
habit handed back to the caller together with the row left in the
database. -/
def updateHabit (row : Habit) (name : Option String)
    (description color : Option String) (scheduleType : Option ScheduleType)
    (intervalDays : Option Int) (weeklyDays : List Int)
    (timezoneOffsetHours : Option Int) (now : Int) :
    Except String (Habit × Habit) :=
  let h9 : Habit := updateHabitFields row name description color scheduleType
    intervalDays weeklyDays timezoneOffsetHours now
  if h9.scheduleType = .interval ∧ h9.intervalDays.getD 0 ≤ 0 then
    .error "interval_days is required and must be positive for interval schedule"
  else if h9.scheduleType = .weekly ∧ h9.weeklyDays = [] then
    .error "weekly_days is required for weekly schedule"
  else
    .ok (h9, repoUpdate row h9 now)

/-- `entity.HabitConfirmation` (the local date is its epoch day). -/
structure HabitConfirmation where
  id : Nat
  habitId : Nat
  userId : Nat
  confirmedAt : Int
  confirmedForDate : Int
  notes : Option String
  createdAt : Int
deriving DecidableEq, Repr

/-- The error paths of `habitService.ConfirmHabit`. -/
inductive ConfirmErr where
  | notFound
  | alreadyConfirmedPeriod
  | alreadyConfirmedDate
deriving DecidableEq, Repr

/-- `habitService.ConfirmHabit`.  `row` is the result of
`GetByIDAndUserID` for `(habit_id, user_id)` — that query matches on id
and user_id only, with no `is_active` filter.  `existingDates` are the
local dates already recorded for the habit in `habit_confirmations`
(`ExistsForDate`).  The Go code recomputes the next deadline on the
in-memory habit after bumping the streak and flag, but the calculator
reads only the schedule and offset fields, which that mutation leaves
unchanged; the returned habit is the row persisted through
`UpdateStreakAndDeadline`. -/
def confirmHabit (row : Option Habit) (existingDates : List Int)
    (now : Int) (notes : Option String) (newId : Nat) :
    Except ConfirmErr (Habit × HabitConfirmation) :=
  match row with
  | none => .error .notFound
  | some habit =>
    if habit.confirmedForCurrentPeriod then .error .alreadyConfirmedPeriod
    else
      let currentDate : Int := localDayOf habit now
      if existingDates.contains currentDate then .error .alreadyConfirmedDate
      else
        let confirmation : HabitConfirmation :=
          ⟨newId, habit.id, habit.userId, now, currentDate, notes, now⟩
        .ok (updateStreakAndDeadline habit (habit.streak + 1)
              (calcNextDeadline habit now) true now, confirmation)

/-- Stored row exhibiting the UpdateHabit persistence gap: interval(1),
offset 0, streak 3, confirmed, deadline at the end of epoch day 0. -/
def c2Habit : Habit :=
  ⟨2, 0, "read", none, none, .interval, some 1, [], 0, 3, 86399, true, some 0,
    true, 0, 0⟩

/-- Updating `c2Habit` at instant 0, changing only the interval to 2. -/
def c2run : Except String (Habit × Habit) :=
  updateHabit c2Habit none none none none (some 2) [] none 0

/-- C2: `UpdateHabit` recomputes the deadline and clears the flag on the
in-memory habit it returns, but `habitRepository.Update` does not write
the `next_deadline_utc` or `confirmed_for_current_period` columns, so the
persisted row keeps the old deadline and flag (and streak and
last_confirmed_at).  Concretely, changing `c2Habit`'s interval to 2 at
instant 0 returns a habit with deadline 259199 and flag false while the
stored row still has deadline 86399 and flag true. -/
theorem update_schedule_change_not_persisted :
    (∀ (row : Habit) (name description color : Option String)
        (st : Option ScheduleType) (n : Option Int) (ws : List Int)
        (tz : Option Int) (now : Int) (ret pers : Habit),
        updateHabit row name description color st n ws tz now = .ok (ret, pers) →
        pers.nextDeadlineUTC = row.nextDeadlineUTC ∧
        pers.confirmedForCurrentPeriod = row.confirmedForCurrentPeriod ∧
        pers.streak = row.streak ∧ pers.lastConfirmedAt = row.lastConfirmedAt) ∧
    (c2run.toOption.map fun p =>
        (p.1.nextDeadlineUTC, p.1.confirmedForCurrentPeriod,
          p.2.nextDeadlineUTC, p.2.confirmedForCurrentPeriod,
          p.2.intervalDays)) =
      some (259199, false, 86399, true, some 2) := by
  constructor
  · intro row name description color st n ws tz now ret pers heq
    simp only [updateHabit] at heq
    split_ifs at heq <;>
      first
      | (rw [Except.ok.injEq, Prod.mk.injEq] at heq
         obtain ⟨hret, hpers⟩ := heq
         subst hpers
         exact ⟨rfl, rfl, rfl, rfl⟩)
      | exact absurd heq (by simp)
  · rfl

/-- The habit returned to the caller in the `c2run` update. -/
def c2ret : Habit :=
  match c2run with
  | .ok p => p.1
  | .error _ => c2Habit

/-- The database row left behind by the `c2run` update. -/
def c2pers : Habit :=
  match c2run with
  | .ok p => p.2
  | .error _ => c2Habit

theorem update_schedule_change_not_persisted_witness :
    c2run = .ok (c2ret, c2pers) ∧
    c2pers.nextDeadlineUTC = c2Habit.nextDeadlineUTC ∧
    c2pers.confirmedForCurrentPeriod = c2Habit.confirmedForCurrentPeriod :=
  ⟨rfl,
    (update_schedule_change_not_persisted.1 c2Habit none none none none
        (some 2) [] none 0 c2ret c2pers rfl).1,
    (update_schedule_change_not_persisted.1 c2Habit none none none none
        (some 2) [] none 0 c2ret c2pers rfl).2.1⟩

/-- A soft-deleted habit: `is_active = false`, unconfirmed, interval(1). -/
def inactiveHabit : Habit :=
  ⟨3, 0, "stretch", none, none, .interval, some 1, [], 0, 4, 86399, false, none,
    false, 0, 0⟩

/-- C5 counterexample: `ConfirmHabit` on a soft-deleted habit does not
return NotFound — `GetByIDAndUserID` selects on `(id, user_id)` only, so
the inactive habit is loaded and the confirmation succeeds. -/
theorem confirm_soft_deleted_succeeds :
    inactiveHabit.isActive = false ∧
    (confirmHabit (some inactiveHabit) [] 100000 none 9).toOption.isSome = true ∧
    confirmHabit (some inactiveHabit) [] 100000 none 9 ≠
      Except.error ConfirmErr.notFound := by
  refine ⟨rfl, by decide, ?_⟩
  intro heq
  have h1 : (confirmHabit (some inactiveHabit) [] 100000 none 9).toOption.isSome
      = true := by decide
  rw [heq] at h1
  simp [Except.toOption] at h1

/-- C5 (amended): soft-deleted habits are excluded from both sweeper
selections (flag reset and demotion) and a sweeper tick leaves them
untouched, but `ConfirmHabit` never answers NotFound on an inactive
habit: NotFound arises only when no `(id, user_id)` row exists at all. -/
theorem soft_deleted_sweeper_and_confirm (h : Habit) (t f g now : Int)
    (existingDates : List Int) (notes : Option String) (newId : Nat)
    (hinact : h.isActive = false) :
    missedDeadlineSelect t h = false ∧
    resetConfirmationSelect f g h = false ∧
    sweepHabit t h = h ∧
    confirmHabit (some h) existingDates now notes newId ≠
      Except.error ConfirmErr.notFound ∧
    confirmHabit none existingDates now notes newId =
      Except.error ConfirmErr.notFound := by
  have m1 : ∀ t' : Int, missedDeadlineSelect t' h = false := by
    intro t'
    simp [missedDeadlineSelect, hinact]
  have m2 : ∀ f' g' : Int, resetConfirmationSelect f' g' h = false := by
    intro f' g'
    simp [resetConfirmationSelect, hinact]
  have hA : resetConfirmationStep t h = h := by
    unfold resetConfirmationStep
    rw [m2]
    simp
  refine ⟨m1 t, m2 f g, ?_, ?_, rfl⟩
  · unfold sweepHabit
    rw [hA]
    unfold processMissedDeadline
    rw [m1]
    simp
  · intro heq
    simp only [confirmHabit] at heq
    split_ifs at heq <;> simp at heq

theorem soft_deleted_sweeper_and_confirm_witness :
    inactiveHabit.isActive = false ∧
    (missedDeadlineSelect 100000 inactiveHabit = false ∧
      resetConfirmationSelect 0 200000 inactiveHabit = false ∧
      sweepHabit 100000 inactiveHabit = inactiveHabit ∧
      confirmHabit (some inactiveHabit) [] 100000 none 9 ≠
        Except.error ConfirmErr.notFound ∧
      confirmHabit none [] 100000 none 9 =
        Except.error ConfirmErr.notFound) :=
  ⟨rfl,
    soft_deleted_sweeper_and_confirm inactiveHabit 100000 0 200000 100000 []
      none 9 rfl⟩

/-!
Part 2 models the user service
(`services/user-service`: `pkg/jwt/jwt.go`,
`internal/domain/entity/session.go`, the Redis session and token storages,
and `authService` in `internal/domain/service`).

Strings that the code manipulates character by character (Redis values,
UUID strings, emails) are `List Char`.  JWT tokens are modelled
symbolically: a signed token is its claims record — forging a signature
and colliding SHA-256 are outside the model — and `HashToken` is the
constructor of a wrapper type.  Each call to `time.Now()` within one
operation is the operation's instant, passed explicitly; `uuid.New` and
jti generation are passed in as arguments.
-/

/-- `jwt.TokenType`. -/
inductive TokenType where
  | access
  | refresh
deriving DecidableEq, Repr

/-- `jwt.Claims`: the custom claims plus the registered claims that the
generators populate. -/
structure Claims where
  userId : List Char
  sessionId : List Char
  tokenType : TokenType
  expiresAt : Int
  issuedAt : Int
  notBefore : Int
  issuer : String
  subject : List Char
  jti : Nat
deriving DecidableEq, Repr

/-- `jwt.TokenManager` (the HMAC secret plays no role in the symbolic
token model). -/
structure TokenManager where
  accessTokenTTL : Int
  refreshTokenTTL : Int
  issuer : String
deriving DecidableEq, Repr

/-- `jwt.HashToken`: SHA-256 of the serialized token, modelled as an
injective wrapper (an ideal hash). -/
structure TokenHash where
  token : Claims
deriving DecidableEq, Repr

def hashToken (t : Claims) : TokenHash := ⟨t⟩

/-- `TokenManager.GenerateAccessToken`: token plus its expiry. -/
def generateAccessToken (tm : TokenManager) (userId sessionId : List Char)
    (now : Int) (jti : Nat) : Claims × Int :=
  (⟨userId, sessionId, .access, now + tm.accessTokenTTL, now, now,
    tm.issuer, userId, jti⟩, now + tm.accessTokenTTL)

/-- `TokenManager.GenerateRefreshToken`. -/
def generateRefreshToken (tm : TokenManager) (userId sessionId : List Char)
    (now : Int) (jti : Nat) : Claims × Int :=
  (⟨userId, sessionId, .refresh, now + tm.refreshTokenTTL, now, now,
    tm.issuer, userId, jti⟩, now + tm.refreshTokenTTL)

/-- `TokenManager.ValidateToken` at instant `now`: in the symbolic model
every presented token was produced by a generator (signature and
algorithm checks pass); the library rejects expired tokens and tokens
used before `nbf`. -/
def validateToken (tok : Claims) (now : Int) : Option Claims :=
  if now < tok.expiresAt ∧ tok.notBefore ≤ now then some tok else none

/-- `TokenManager.ValidateRefreshToken`. -/
def validateRefreshTokenOp (tok : Claims) (now : Int) : Option Claims :=
  match validateToken tok now with
  | none => none
  | some claims =>
    if claims.tokenType = .refresh then some claims else none

/-- `TokenManager.ValidateAccessToken`. -/
def validateAccessTokenOp (tok : Claims) (now : Int) : Option Claims :=
  match validateToken tok now with
  | none => none
  | some claims =>
    if claims.tokenType = .access then some claims else none

/-- `entity.Session`. -/
structure Session where
  id : List Char
  userId : List Char
  tokenHash : TokenHash
  ipAddress : Option String
  userAgent : Option String
  expiresAt : Int
  createdAt : Int
  lastActivityAt : Int
deriving DecidableEq, Repr

/-- The Redis session store, collapsed to an association list keyed by
session id.  `redis.SessionStorage` keeps three key families (session
data, token-hash lookup, per-user session set); the operations the
claims exercise read sessions by id and by user id, both derivable from
this map. -/
def SessionCache : Type := List (List Char × Session)

/-- `SessionStorage.Set`: rejects an already-expired session, otherwise
stores under the session id (overwriting any previous entry). -/
def cacheSet (c : SessionCache) (s : Session) (now : Int) :
    Except String SessionCache :=
  if s.expiresAt - now ≤ 0 then .error "session already expired"
  else .ok ((s.id, s) :: c.filter (fun p => p.1 ≠ s.id))

/-- `SessionStorage.Get`. -/
def cacheGet (c : SessionCache) (sessionId : List Char) : Option Session :=
  (c.find? (fun p => p.1 = sessionId)).map (·.2)

/-- `SessionStorage.Delete` (cleans all key families). -/
def cacheDelete (c : SessionCache) (sessionId : List Char) : SessionCache :=
  c.filter (fun p => p.1 ≠ sessionId)

/-- `SessionStorage.GetByUserID` via the per-user session set. -/
def cacheGetByUserId (c : SessionCache) (userId : List Char) : List Session :=
  (c.filter (fun p => p.2.userId = userId)).map (·.2)

/-- `SessionStorage.DeleteByUserID`: delete every session of the user. -/
def cacheDeleteByUserId (c : SessionCache) (userId : List Char) : SessionCache :=
  c.filter (fun p => p.2.userId ≠ userId)

/-- `service.TokenPair`. -/
structure TokenPair where
  accessToken : Claims
  refreshToken : Claims
  accessTokenExpiresAt : Int
  refreshTokenExpiresAt : Int
deriving DecidableEq, Repr

/-- `authService.createSession`: generate both tokens, hash the refresh
token, build the session with `expires_at` equal to the refresh expiry,
store it in the cache (the PostgreSQL audit insert is best-effort and
does not affect the result). -/
def createSession (tm : TokenManager) (cache : SessionCache)
    (userId : List Char) (ip : Option String) (ua : Option String)
    (sessionId : List Char) (now : Int) (jtiA jtiR : Nat) :
    Except String (TokenPair × SessionCache) :=
  let (accessTok, accessExp) := generateAccessToken tm userId sessionId now jtiA
  let (refreshTok, refreshExp) := generateRefreshToken tm userId sessionId now jtiR
  let tokenHash := hashToken refreshTok
  let session : Session :=
    ⟨sessionId, userId, tokenHash, ip, ua, refreshExp, now, now⟩
  match cacheSet cache session now with
  | .error e => .error e
  | .ok cache2 =>
    .ok (⟨accessTok, refreshTok, accessExp, refreshExp⟩, cache2)

/-- `authService.RefreshToken`: validate as refresh, require the session
to still exist in the cache, issue a new access+refresh pair bound to the
same session id, then update `last_activity_at` (that re-store failure is
swallowed).  The session's stored `token_hash` and `expires_at` are not
rewritten. -/
def refreshTokenOp (tm : TokenManager) (cache : SessionCache)
    (refreshToken : Claims) (now : Int) (jtiA jtiR : Nat) :
    Except String (TokenPair × SessionCache) :=
  match validateRefreshTokenOp refreshToken now with
  | none => .error "invalid refresh token"
  | some claims =>
    match cacheGet cache claims.sessionId with
    | none => .error "session not found or expired"
    | some session =>
      let (accessTok, accessExp) :=
        generateAccessToken tm session.userId session.id now jtiA
      let (refreshTok, refreshExp) :=
        generateRefreshToken tm session.userId session.id now jtiR
      let cache2 : SessionCache :=
        match cacheGet cache session.id with
        | none => cache
        | some s =>
          match cacheSet cache { s with lastActivityAt := now } now with
          | .error _ => cache
          | .ok c2 => c2
      .ok (⟨accessTok, refreshTok, accessExp, refreshExp⟩, cache2)

/-- C8 (amended): `createSession` establishes the binding invariant —
the stored `expires_at` equals the refresh token's expiry and the stored
hash is the hash of the issued refresh token — and `RefreshToken` issues
a new access+refresh pair bound to the same session id and bumps
`last_activity_at`, but leaves the stored token hash and `expires_at` at
their creation values, so after a refresh they still describe the
original refresh token rather than the newest one. -/
theorem session_refresh_binding (tm : TokenManager) (cache : SessionCache)
    (uid : List Char) (ip ua : Option String) (sid : List Char)
    (t0 t1 : Int) (jA jR jA2 jR2 : Nat)
    (httl : 0 < tm.refreshTokenTTL) (h01 : t0 ≤ t1)
    (hlive : t1 < t0 + tm.refreshTokenTTL) :
    ∃ (pair0 pair1 : TokenPair) (cache0 cache1 : SessionCache) (s1 : Session),
      createSession tm cache uid ip ua sid t0 jA jR = .ok (pair0, cache0) ∧
      pair0.refreshToken.expiresAt = t0 + tm.refreshTokenTTL ∧
      refreshTokenOp tm cache0 pair0.refreshToken t1 jA2 jR2 = .ok (pair1, cache1) ∧
      pair1.accessToken.sessionId = sid ∧
      pair1.refreshToken.sessionId = sid ∧
      pair1.refreshToken.expiresAt = t1 + tm.refreshTokenTTL ∧
      cacheGet cache1 sid = some s1 ∧
      s1.tokenHash = hashToken pair0.refreshToken ∧
      s1.expiresAt = t0 + tm.refreshTokenTTL ∧
      s1.lastActivityAt = t1 := by
  have hnotexp0 : ¬(t0 + tm.refreshTokenTTL - t0 ≤ 0) := by omega
  have hnotexp1 : ¬(t0 + tm.refreshTokenTTL - t1 ≤ 0) := by omega
  have hc0 : createSession tm cache uid ip ua sid t0 jA jR =
      .ok (⟨(generateAccessToken tm uid sid t0 jA).1,
            (generateRefreshToken tm uid sid t0 jR).1,
            t0 + tm.accessTokenTTL, t0 + tm.refreshTokenTTL⟩,
        (sid, ⟨sid, uid, hashToken (generateRefreshToken tm uid sid t0 jR).1,
          ip, ua, t0 + tm.refreshTokenTTL, t0, t0⟩) ::
          cache.filter (fun p => p.1 ≠ sid)) := by
    simp only [createSession, generateAccessToken, generateRefreshToken, cacheSet]
    rw [if_neg hnotexp0]
  have hval : validateRefreshTokenOp (generateRefreshToken tm uid sid t0 jR).1 t1 =
      some (generateRefreshToken tm uid sid t0 jR).1 := by
    simp only [validateRefreshTokenOp, validateToken, generateRefreshToken]
    rw [if_pos ⟨hlive, h01⟩]
    rfl
  have hfind : ∀ (s : Session) (rest : SessionCache),
      cacheGet ((sid, s) :: rest) sid = some s := by
    intro s rest
    unfold cacheGet
    rw [List.find?_cons_of_pos _ (by simp)]
    rfl
  have hc1 : refreshTokenOp tm
      ((sid, ⟨sid, uid, hashToken (generateRefreshToken tm uid sid t0 jR).1,
          ip, ua, t0 + tm.refreshTokenTTL, t0, t0⟩) ::
        cache.filter (fun p => p.1 ≠ sid))
      (generateRefreshToken tm uid sid t0 jR).1 t1 jA2 jR2 =
      .ok (⟨(generateAccessToken tm uid sid t1 jA2).1,
            (generateRefreshToken tm uid sid t1 jR2).1,
            t1 + tm.accessTokenTTL, t1 + tm.refreshTokenTTL⟩,
        (sid, ⟨sid, uid, hashToken (generateRefreshToken tm uid sid t0 jR).1,
          ip, ua, t0 + tm.refreshTokenTTL, t0, t1⟩) ::
        ((sid, ⟨sid, uid, hashToken (generateRefreshToken tm uid sid t0 jR).1,
            ip, ua, t0 + tm.refreshTokenTTL, t0, t0⟩) ::
          cache.filter (fun p => p.1 ≠ sid)).filter (fun p => p.1 ≠ sid)) := by
    simp only [refreshTokenOp, hval]
    simp only [generateRefreshToken, generateAccessToken]
    rw [hfind]
    dsimp only
    rw [hfind]
    dsimp only
    simp only [cacheSet]
    rw [if_neg hnotexp1]
  exact ⟨_, _, _, _, _, hc0, rfl, hc1, rfl, rfl, rfl, hfind _ _, rfl, rfl, rfl⟩

/-- Concrete token manager (access TTL 10, refresh TTL 100) and a
login-then-refresh run: session created at instant 0, refreshed at 10. -/
def c8TM : TokenManager := ⟨10, 100, "hobits"⟩

theorem session_refresh_binding_witness :
    (0 < c8TM.refreshTokenTTL ∧ (0 : Int) ≤ 10 ∧ 10 < 0 + c8TM.refreshTokenTTL) ∧
    ∃ (pair0 pair1 : TokenPair) (cache0 cache1 : SessionCache) (s1 : Session),
      createSession c8TM [] ['u'] none none ['s'] 0 1 2 = .ok (pair0, cache0) ∧
      pair0.refreshToken.expiresAt = 0 + c8TM.refreshTokenTTL ∧
      refreshTokenOp c8TM cache0 pair0.refreshToken 10 3 4 = .ok (pair1, cache1) ∧
      pair1.accessToken.sessionId = ['s'] ∧
      pair1.refreshToken.sessionId = ['s'] ∧
      pair1.refreshToken.expiresAt = 10 + c8TM.refreshTokenTTL ∧
      cacheGet cache1 ['s'] = some s1 ∧
      s1.tokenHash = hashToken pair0.refreshToken ∧
      s1.expiresAt = 0 + c8TM.refreshTokenTTL ∧
      s1.lastActivityAt = 10 :=
  ⟨⟨by decide, by decide, by decide⟩,
    session_refresh_binding c8TM [] ['u'] none none ['s'] 0 10 1 2 3 4
      (by decide) (by decide) (by decide)⟩

def junkClaims : Claims := ⟨[], [], .access, 0, 0, 0, "", [], 0⟩

def junkPair : TokenPair := ⟨junkClaims, junkClaims, 0, 0⟩

def c8run0 : Except String (TokenPair × SessionCache) :=
  createSession c8TM [] ['u'] none none ['s'] 0 1 2

def c8pair0 : TokenPair :=
  match c8run0 with
  | .ok p => p.1
  | .error _ => junkPair

def c8cache0 : SessionCache :=
  match c8run0 with
  | .ok p => p.2
  | .error _ => []

def c8run1 : Except String (TokenPair × SessionCache) :=
  refreshTokenOp c8TM c8cache0 c8pair0.refreshToken 10 3 4

def c8pair1 : TokenPair :=
  match c8run1 with
  | .ok p => p.1
  | .error _ => junkPair

def c8cache1 : SessionCache :=
  match c8run1 with
  | .ok p => p.2
  | .error _ => []

/-- `hash.HashPassword` (bcrypt), modelled as an injective wrapper. -/
structure PasswordHash where
  password : List Char
deriving DecidableEq, Repr

def hashPassword (pw : List Char) : PasswordHash := ⟨pw⟩

/-- `entity.User` (the fields the reset flow touches). -/
structure UserRec where
  id : List Char
  email : List Char
  username : List Char
  passwordHash : PasswordHash
  firstName : Option String
  isActive : Bool
  emailVerified : Bool
  timezone : String
deriving DecidableEq, Repr

/-- The identity events the reset flow publishes to Kafka. -/
inductive Event where
  | passwordResetRequested (userId email resetToken : List Char)
  | passwordChanged (userId email : List Char) (wasReset : Bool)
deriving DecidableEq, Repr

/-- The state the password-reset flow touches: the users table, the
`password_reset:token:` keys in Redis, the session cache, and the
published event log (external, not caller-visible). -/
structure AuthState where
  users : List UserRec
  resetTokens : List (List Char × List Char)
  sessions : SessionCache
  events : List Event

/-- `userRepository.GetByEmail`: `WHERE email = $1 AND is_active = true`. -/
def getUserByEmail (users : List UserRec) (email : List Char) : Option UserRec :=
  users.find? (fun u => decide (u.email = email) && u.isActive)

/-- `userRepository.GetByID`: `WHERE id = $1 AND is_active = true`. -/
def getUserById (users : List UserRec) (id : List Char) : Option UserRec :=
  users.find? (fun u => decide (u.id = id) && u.isActive)

/-- `userService.UpdatePassword` via `userRepository.UpdatePassword`:
`SET password_hash WHERE id = $1 AND is_active = true`. -/
def updatePasswordOp (users : List UserRec) (id : List Char)
    (newPassword : List Char) : List UserRec :=
  users.map fun u =>
    if u.id = id ∧ u.isActive = true then
      { u with passwordHash := hashPassword newPassword }
    else u

/-- `authService.ForgotPassword`: a missing (or inactive) user yields
success with no state change — "Don't reveal if email exists"; an
existing user gets a fresh reset token stored under
`password_reset:token:<t>` with value `fmt.Sprintf("%s:%s", userID,
email)` and a `PasswordResetRequested` event (publish failure is
swallowed).  Token generation (`crypto/rand`) is passed in as
`newToken`. -/
def forgotPassword (st : AuthState) (email newToken : List Char) :
    Except String Unit × AuthState :=
  match getUserByEmail st.users email with
  | none => (.ok (), st)
  | some user =>
    (.ok (),
      { st with
        resetTokens := (newToken, user.id ++ ':' :: user.email) ::
          st.resetTokens.filter (fun p => p.1 ≠ newToken)
        events := .passwordResetRequested user.id user.email newToken ::
          st.events })

/-- C9: the caller-visible result of `ForgotPassword` is the same
success value whatever the user table, the email, the generated token
and the rest of the state — in particular it does not depend on whether
the email belongs to an existing user. -/
theorem forgot_password_indistinguishable (st st' : AuthState)
    (email email' newToken newToken' : List Char) :
    (forgotPassword st email newToken).1 =
      (forgotPassword st' email' newToken').1 := by
  unfold forgotPassword
  cases getUserByEmail st.users email <;>
    cases getUserByEmail st'.users email' <;> rfl

/-- The space class of Go's scan verbs, restricted to the ASCII
whitespace that could occur here (UUID strings and emails contain none
of it). -/
def isGoSpace (c : Char) : Bool :=
  c = ' ' || c = '\t' || c = '\n' || c = '\r'

/-- `fmt.Sscanf(value, "%s:%s", &uid, &em)`: in Go's scanning language
`%s` skips leading spaces and then consumes a maximal run of non-space
characters — it does not stop at `:` — a non-space literal in the format
must match the next input rune exactly, and hitting end of input instead
is a scan error. -/
def goSscanfTwoTokensColon (s : List Char) :
    Option (List Char × List Char) :=
  let t1 := s.dropWhile isGoSpace
  let tok1 := t1.takeWhile (fun c => !isGoSpace c)
  if tok1.isEmpty then none
  else
    match t1.drop tok1.length with
    | [] => none
    | c :: rest =>
      if c = ':' then
        let t2 := rest.dropWhile isGoSpace
        let tok2 := t2.takeWhile (fun c => !isGoSpace c)
        if tok2.isEmpty then none else some (tok1, tok2)
      else none

/-- `PasswordResetTokenStorage.GetTokenData`: Redis lookup, then parse
the stored `userID:email` value with `Sscanf`. -/
def getTokenData (resetTokens : List (List Char × List Char))
    (token : List Char) : Except String (List Char × List Char) :=
  match resetTokens.find? (fun p => p.1 = token) with
  | none => .error "password reset token not found or expired"
  | some p =>
    match goSscanfTwoTokensColon p.2 with
    | none => .error "invalid token data format"
    | some (uid, em) => .ok (uid, em)

/-- `uuid.Parse` at the fidelity the reset flow needs: it can reject a
malformed string.  (The flow never gets this far for stored tokens.) -/
def uuidParse (s : List Char) : Option (List Char) :=
  if s.length = 36 then some s else none

/-- `authService.ResetPassword`: token-data lookup, uuid parse, active
user lookup, credential rewrite, token delete (one-time use), revoke all
sessions, publish `PasswordChanged(was_reset=true)`. -/
def resetPassword (st : AuthState) (token newPassword : List Char) :
    Except String Unit × AuthState :=
  match getTokenData st.resetTokens token with
  | .error _ => (.error "invalid or expired reset token", st)
  | .ok (userIdStr, email) =>
    match uuidParse userIdStr with
    | none => (.error "invalid user ID", st)
    | some userId =>
      match getUserById st.users userId with
      | none => (.error "user not found", st)
      | some user =>
        (.ok (),
          { st with
            users := updatePasswordOp st.users userId newPassword
            resetTokens := st.resetTokens.filter (fun p => p.1 ≠ token)
            sessions := cacheDeleteByUserId st.sessions userId
            events := .passwordChanged user.id email true :: st.events })

theorem dropWhile_of_all_neg (p : Char → Bool) (s : List Char)
    (hall : s.all (fun c => !p c) = true) : s.dropWhile p = s := by
  cases s with
  | nil => rfl
  | cons a l =>
    simp only [List.all_cons, Bool.and_eq_true, Bool.not_eq_true'] at hall
    simp [List.dropWhile_cons, hall.1]

theorem takeWhile_of_all_pos (p : Char → Bool) (s : List Char)
    (hall : s.all p = true) : s.takeWhile p = s := by
  induction s with
  | nil => rfl
  | cons a l ih =>
    simp only [List.all_cons, Bool.and_eq_true] at hall
    simp [List.takeWhile_cons, hall.1, ih hall.2]

/-- On a whitespace-free nonempty value, the first `%s` consumes the
whole string, and the `:` literal then meets end of input: the scan
fails. -/
theorem goSscanf_no_space (s : List Char) (hne : s ≠ [])
    (hall : s.all (fun c => !isGoSpace c) = true) :
    goSscanfTwoTokensColon s = none := by
  have hdrop : s.dropWhile isGoSpace = s := dropWhile_of_all_neg _ s hall
  have htake : s.takeWhile (fun c => !isGoSpace c) = s :=
    takeWhile_of_all_pos _ s hall
  unfold goSscanfTwoTokensColon
  dsimp only
  rw [hdrop, htake]
  rw [if_neg (by simpa using hne)]
  rw [List.drop_length]

/-- C1: the reset token stored by `ForgotPassword` can never be redeemed.
`StoreToken` writes `userID:email`, but `GetTokenData` parses it with
`Sscanf("%s:%s")`, whose first `%s` consumes the entire whitespace-free
value, so the parse always fails and `ResetPassword` returns the
invalid-token error, leaving the whole state — credential hash, sessions,
stored token — unchanged. -/
theorem reset_password_never_succeeds (st : AuthState)
    (email newToken newPassword : List Char) (user : UserRec)
    (hfind : getUserByEmail st.users email = some user)
    (hid : user.id.all (fun c => !isGoSpace c) = true)
    (hemail : user.email.all (fun c => !isGoSpace c) = true) :
    resetPassword (forgotPassword st email newToken).2 newToken newPassword =
      (.error "invalid or expired reset token",
        (forgotPassword st email newToken).2) := by
  have hvalne : user.id ++ ':' :: user.email ≠ [] := by simp
  have hvalall : (user.id ++ ':' :: user.email).all
      (fun c => !isGoSpace c) = true := by
    rw [List.all_append]
    simp only [List.all_cons, hid, hemail]
    rfl
  have hparse := goSscanf_no_space _ hvalne hvalall
  have hfp : (forgotPassword st email newToken).2 =
      { st with
        resetTokens := (newToken, user.id ++ ':' :: user.email) ::
          st.resetTokens.filter (fun p => p.1 ≠ newToken)
        events := .passwordResetRequested user.id user.email newToken ::
          st.events } := by
    simp only [forgotPassword, hfind]
  have hgtd : getTokenData ((newToken, user.id ++ ':' :: user.email) ::
      st.resetTokens.filter (fun p => p.1 ≠ newToken)) newToken =
      .error "invalid token data format" := by
    unfold getTokenData
    rw [List.find?_cons_of_pos _ (by simp)]
    dsimp only
    rw [hparse]
  rw [hfp]
  unfold resetPassword
  rw [hgtd]

/-- A registered, active, verified user with whitespace-free id and
email, alone in the state. -/
def c1User : UserRec :=
  ⟨['u', '1'], ['a', '@', 'b'], ['a'], hashPassword ['p'], none, true, true,
    "UTC"⟩

def c1State : AuthState := ⟨[c1User], [], [], []⟩

theorem reset_password_never_succeeds_witness :
    (getUserByEmail c1State.users ['a', '@', 'b'] = some c1User ∧
      c1User.id.all (fun c => !isGoSpace c) = true ∧
      c1User.email.all (fun c => !isGoSpace c) = true) ∧
    resetPassword (forgotPassword c1State ['a', '@', 'b'] ['t']).2 ['t']
        ['n', 'e', 'w'] =
      (.error "invalid or expired reset token",
        (forgotPassword c1State ['a', '@', 'b'] ['t']).2) :=
  ⟨⟨by decide, by decide, by decide⟩,
    reset_password_never_succeeds c1State ['a', '@', 'b'] ['t']
      ['n', 'e', 'w'] c1User (by decide) (by decide) (by decide)⟩

/-- C8 counterexample: after a successful refresh at instant 10, the
session record still stores `expires_at = 100` and the hash of the
original refresh token, while the refresh token now bound to the session
expires at 110 — so the stored `expires_at` does not equal the current
refresh token's expiry and the stored hash does not match that token. -/
theorem session_refresh_binding_broken :
    c8run0.toOption.isSome = true ∧
    c8run1.toOption.isSome = true ∧
    (cacheGet c8cache1 ['s']).map (·.expiresAt) = some 100 ∧
    c8pair1.refreshToken.expiresAt = 110 ∧
    (cacheGet c8cache1 ['s']).map (·.tokenHash) =
      some (hashToken c8pair0.refreshToken) ∧
    hashToken c8pair0.refreshToken ≠ hashToken c8pair1.refreshToken ∧
    (100 : Int) ≠ 110 := by
  decide

end Hobits
